import Mathlib

set_option maxHeartbeats 1000000

/- Shallow embedding of fs-tree-diff: src/lib/entry.js and src/lib/index.js.
   JS numbers for sizes, timestamps and modes are modelled as Nat; paths and
   file contents as String; the nullable checksum as Option String. -/

/-- Entry record (entry.js): one path of a tree snapshot. -/
structure Entry where
  relativePath : String
  mode : Nat
  size : Nat
  mtime : Nat
  checksum : Option String
  deriving DecidableEq

/-- entry.js line 7: a relativePath denotes a directory when its last
character is the slash (charAt(length - 1) === '/'). -/
def pathIsDirectory (relativePath : String) : Bool :=
  relativePath.data.getLast? == some '/'

/-- entry.js DIRECTORY_MODE. -/
def DIRECTORY_MODE : Nat := 16877

/-- entry.js constructor: mode is derived once, at creation, from the
trailing-slash convention. -/
def Entry.make (relativePath : String) (size : Nat) (mtime : Nat)
    (checksum : Option String) : Entry :=
  { relativePath := relativePath
    mode := if pathIsDirectory relativePath then DIRECTORY_MODE else 0
    size := size
    mtime := mtime
    checksum := checksum }

/-- entry.js: (entry.mode & 61440) === 16384. -/
def Entry.isDirectory (e : Entry) : Bool := e.mode &&& 61440 == 16384

/-- entry.js: isFile is exactly the negation of isDirectory. -/
def Entry.isFile (e : Entry) : Bool := !e.isDirectory

/-- The five operation kinds emitted by the calculator and the change log. -/
inductive Op
  | create
  | change
  | unlink
  | mkdir
  | rmdir
  deriving DecidableEq

/-- A [operation, relativePath, entry] triple (a patch command or a recorded
change). -/
structure Cmd where
  op : Op
  path : String
  entry : Entry
  deriving DecidableEq

/-- index.js addCommand. -/
def addCommand (entry : Entry) : Cmd :=
  ⟨if entry.isDirectory then Op.mkdir else Op.create, entry.relativePath, entry⟩

/-- index.js removeCommand. -/
def removeCommand (entry : Entry) : Cmd :=
  ⟨if entry.isDirectory then Op.rmdir else Op.unlink, entry.relativePath, entry⟩

/-- index.js updateCommand. -/
def updateCommand (entry : Entry) : Cmd :=
  ⟨Op.change, entry.relativePath, entry⟩

/-- index.js FSTree.defaultIsEqual: directory pairs are always equal; file
comparison is size, numeric mtime and mode (mtime is already numeric here,
so the + coercion is the identity). -/
def defaultIsEqual (entryA entryB : Entry) : Bool :=
  if entryA.isDirectory && entryB.isDirectory then
    true
  else
    entryA.size == entryB.size && entryA.mtime == entryB.mtime &&
      entryA.mode == entryB.mode

/-- State of the calculatePatch while loop when it exits: the unconsumed
suffixes of the two inputs and the two output buffers, each in push order. -/
structure MergeResult where
  oursLeft : List Entry
  theirsLeft : List Entry
  operations : List Cmd
  removals : List Cmd
  deriving DecidableEq

/-- The while loop of index.js calculatePatch (lines 268-304): a forward
merge over both sorted sequences; removed or updated directories are
deferred into the removals buffer, everything else is appended to the
operations buffer in scan order. -/
def mergeLoop (isEq : Entry → Entry → Bool) :
    List Entry → List Entry → MergeResult
  | [], theirs => ⟨[], theirs, [], []⟩
  | x :: ours, [] => ⟨x :: ours, [], [], []⟩
  | x :: ours, y :: theirs =>
    if x.relativePath < y.relativePath then
      let r := mergeLoop isEq ours (y :: theirs)
      if x.isDirectory then
        { r with removals := removeCommand x :: r.removals }
      else
        { r with operations := removeCommand x :: r.operations }
    else if y.relativePath < x.relativePath then
      let r := mergeLoop isEq (x :: ours) theirs
      { r with operations := addCommand y :: r.operations }
    else
      let r := mergeLoop isEq ours theirs
      if isEq x y then r
      else if x.isDirectory then
        { r with removals := updateCommand y :: r.removals }
      else
        { r with operations := updateCommand y :: r.operations }
  termination_by ours theirs => ours.length + theirs.length

/-- index.js calculatePatch (lines 248-317) after the argument check: the
merge loop, then the cleanup loops (every leftover ours entry is pushed into
removals, every leftover theirs entry becomes an add in operations), then
operations concatenated with the reversed removals. -/
def calculatePatch (ours theirs : List Entry)
    (isEq : Entry → Entry → Bool) : List Cmd :=
  let r := mergeLoop isEq ours theirs
  let operations := r.operations ++ r.theirsLeft.map addCommand
  let removals := r.removals ++ r.oursLeft.map removeCommand
  operations ++ removals.reverse

/-- JS error values thrown by the container and the calculator. -/
inductive JSErr
  | error (msg : String)
  | typeError (msg : String)
  deriving DecidableEq

/-- The JS entry point of calculatePatch with its arguments-object check:
`none` models an absent second argument (arity 1, default predicate used),
`some none` a second argument that is provided but not callable, and
`some (some f)` a callable predicate. -/
def calculatePatchJS (ours theirs : List Entry)
    (isEqualArg : Option (Option (Entry → Entry → Bool))) :
    Except JSErr (List Cmd) :=
  match isEqualArg with
  | some none =>
    Except.error (JSErr.typeError
      "calculatePatch second argument must be a function")
  | some (some isEqual) => Except.ok (calculatePatch ours theirs isEqual)
  | none => Except.ok (calculatePatch ours theirs defaultIsEqual)

/-- Container lifecycle: created STARTED; stop() is terminal. -/
inductive LifeState
  | started
  | stopped
  deriving DecidableEq

/-- The FSTree container state: the sorted entry list, the root handle, the
change log with its path-to-index dedup map, and the lifecycle state. -/
structure FSTree where
  entries : List Entry
  root : String
  changes : List Cmd
  relativePathToChange : List (String × Nat)
  state : LifeState
  deriving DecidableEq

/-- Scan of findByRelativePath carrying the running index. -/
def findAux (relativePath : String) : List Entry → Nat → Option (Entry × Nat)
  | [], _ => none
  | entry :: rest, i =>
    if entry.relativePath = relativePath then some (entry, i)
    else findAux relativePath rest (i + 1)

/-- index.js findByRelativePath: linear scan; none models the
(entry: null, index: -1) result. -/
def findByRelativePath (entries : List Entry) (relativePath : String) :
    Option (Entry × Nat) :=
  findAux relativePath entries 0

/-- Lookup in the _relativePathToChange plain object. -/
def lookupChange : List (String × Nat) → String → Option Nat
  | [], _ => none
  | (path, i) :: rest, relativePath =>
    if path = relativePath then some i else lookupChange rest relativePath

/-- index.js _track: dedupes changes by path; a null entry makes the
relativePath read throw a TypeError. -/
def track (t : FSTree) (operation : Op) (entry : Option Entry) :
    Option JSErr × FSTree :=
  match entry with
  | none => (some (JSErr.typeError "Cannot read relativePath of null"), t)
  | some e =>
    let relativePath := e.relativePath
    match lookupChange t.relativePathToChange relativePath with
    | none =>
      (none, { t with
        changes := t.changes ++ [⟨operation, relativePath, e⟩]
        relativePathToChange :=
          (relativePath, t.changes.length) :: t.relativePathToChange })
    | some position =>
      match t.changes[position]? with
      | some old =>
        let newChanges := t.changes.set position ⟨operation, old.path, e⟩
        (none, { t with changes := newChanges })
      | none =>
        (some (JSErr.typeError "Cannot set property of undefined"), t)

/-- The scan of index.js _insertAt for a not-found path (lines 218-236):
replace on an exact path match, splice the new entry in right before the
first entry whose path compares LESS THAN the new path (this comparison
direction is exactly what the source does), push at the end otherwise. -/
def insertScan : List Entry → Entry → List Entry
  | [], entry => [entry]
  | current :: rest, entry =>
    if current.relativePath = entry.relativePath then entry :: rest
    else if current.relativePath < entry.relativePath then
      entry :: current :: rest
    else
      current :: insertScan rest entry

/-- index.js _insertAt: a found result overwrites in place at its index,
otherwise the scan above runs. -/
def insertAt (entries : List Entry) (result : Option (Entry × Nat))
    (entry : Entry) : List Entry :=
  match result with
  | some (_, index) => entries.set index entry
  | none => insertScan entries entry

/-- Log of the external synchronous fs calls an operation issues. -/
inductive IOCall
  | readFile (path : String)
  | writeFile (path : String) (content : String)
  | unlinkCall (path : String)
  | rmdirCall (path : String)
  | mkdirCall (path : String)
  deriving DecidableEq

/-- index.js unlinkSync: stopped guard, path lookup, fs.unlinkSync, change
tracking (a TypeError when the path is absent), entry re-insertion. -/
def unlinkSync (t : FSTree) (relativePath : String) :
    Option JSErr × FSTree × List IOCall :=
  if t.state = LifeState.stopped then
    (some (JSErr.error "NOPE, operation: unlink"), t, [])
  else
    let result := findByRelativePath t.entries relativePath
    let ios := [IOCall.unlinkCall (t.root ++ "/" ++ relativePath)]
    match result with
    | none =>
      (some (JSErr.typeError "Cannot read relativePath of null"), t, ios)
    | some (e, _) =>
      match track t Op.unlink (some e) with
      | (some err, t1) => (some err, t1, ios)
      | (none, t1) =>
        (none, { t1 with entries := insertAt t1.entries result e }, ios)

/-- index.js rmdirSync: same shape as unlinkSync with the rmdir operation. -/
def rmdirSync (t : FSTree) (relativePath : String) :
    Option JSErr × FSTree × List IOCall :=
  if t.state = LifeState.stopped then
    (some (JSErr.error "NOPE, operation: rmdir"), t, [])
  else
    let result := findByRelativePath t.entries relativePath
    let ios := [IOCall.rmdirCall (t.root ++ "/" ++ relativePath)]
    match result with
    | none =>
      (some (JSErr.typeError "Cannot read relativePath of null"), t, ios)
    | some (e, _) =>
      match track t Op.rmdir (some e) with
      | (some err, t1) => (some err, t1, ios)
      | (none, t1) =>
        (none, { t1 with entries := insertAt t1.entries result e }, ios)

/-- index.js mkdirSync: same shape as unlinkSync with the mkdir operation;
the fs.mkdirSync call is issued before _track runs. -/
def mkdirSync (t : FSTree) (relativePath : String) :
    Option JSErr × FSTree × List IOCall :=
  if t.state = LifeState.stopped then
    (some (JSErr.error "NOPE, operation: mkdir"), t, [])
  else
    let result := findByRelativePath t.entries relativePath
    let ios := [IOCall.mkdirCall (t.root ++ "/" ++ relativePath)]
    match result with
    | none =>
      (some (JSErr.typeError "Cannot read relativePath of null"), t, ios)
    | some (e, _) =>
      match track t Op.mkdir (some e) with
      | (some err, t1) => (some err, t1, ios)
      | (none, t1) =>
        (none, { t1 with entries := insertAt t1.entries result e }, ios)

/-- JS falsiness of the checksum field: undefined, null and the empty string
are falsy. -/
def strOptFalsy : Option String → Bool
  | none => true
  | some s => s.isEmpty

/-- index.js writeFileSync, parameterised over the external collaborators:
the digest function (md5hex), the clock (Date.now) and the on-disk content
(fs.readFileSync by full path). A missing checksum on the found entry is
computed lazily by reading the file, mutating the entry object in place
(modelled by writing the updated record back at its index). Writing content
whose digest equals the entry checksum returns without the write. -/
def writeFileSync (digest : String → String) (now : Nat)
    (disk : String → String) (t : FSTree) (relativePath content : String) :
    Option JSErr × FSTree × List IOCall :=
  if t.state = LifeState.stopped then
    (some (JSErr.error "NOPE, operation: writeFile"), t, [])
  else
    let result := findByRelativePath t.entries relativePath
    let checksum := digest content
    match result with
    | some (entry0, index) =>
      let lazy : Entry × FSTree × List IOCall :=
        if strOptFalsy entry0.checksum then
          let c := digest (disk (t.root ++ "/" ++ relativePath))
          let e1 := { entry0 with checksum := some c }
          (e1, { t with entries := t.entries.set index e1 },
           [IOCall.readFile (t.root ++ "/" ++ relativePath)])
        else (entry0, t, [])
      let entry := lazy.1
      let t1 := lazy.2.1
      let lazyIos := lazy.2.2
      if entry.checksum = some checksum then
        (none, t1, lazyIos)
      else
        let ios := lazyIos ++
          [IOCall.writeFile (t.root ++ "/" ++ relativePath) content]
        let newEntry := Entry.make relativePath content.length now
          (some checksum)
        match track t1 Op.change (some newEntry) with
        | (some err, t2) => (some err, t2, ios)
        | (none, t2) =>
          (none, { t2 with entries := insertAt t2.entries result newEntry },
           ios)
    | none =>
      let ios := [IOCall.writeFile (t.root ++ "/" ++ relativePath) content]
      let newEntry := Entry.make relativePath content.length now
        (some checksum)
      match track t Op.create (some newEntry) with
      | (some err, t2) => (some err, t2, ios)
      | (none, t2) =>
        (none, { t2 with entries := insertAt t2.entries result newEntry },
         ios)

/-- Modelled from the spec: the drain step as section 4.3 words it — leftover
ours entries become removals with directories deferred into the removals
buffer and FILES APPENDED FORWARD to the operations list, leftover theirs
entries become adds appended forward; output is operations then reversed
removals. This is the comparison point for the drain wording; the source
itself (cleanup loops of calculatePatch) defers every leftover ours entry. -/
def calculatePatchSpecDrain (ours theirs : List Entry)
    (isEq : Entry → Entry → Bool) : List Cmd :=
  let r := mergeLoop isEq ours theirs
  let drainFileOps :=
    (r.oursLeft.filter (fun e => !e.isDirectory)).map removeCommand
  let drainDirRems :=
    (r.oursLeft.filter (fun e => e.isDirectory)).map removeCommand
  let operations := r.operations ++ drainFileOps ++ r.theirsLeft.map addCommand
  let removals := r.removals ++ drainDirRems
  operations ++ removals.reverse

/-- The entry record after the lazy checksum load of writeFileSync. -/
def lazyEntry (c : String) (e : Entry) : Entry :=
  { e with checksum := some c }

/-- The container after the lazy checksum load of writeFileSync: the same
record written back at its index, only the checksum field filled in. -/
def lazyNoopTree (c : String) (t : FSTree) (i : Nat) (e : Entry) : FSTree :=
  { t with entries := t.entries.set i (lazyEntry c e) }

/-- p lies strictly below d in the path tree: d extended by a nonempty
suffix. -/
def strictDescendant (d p : String) : Prop :=
  ∃ s : String, s ≠ "" ∧ p = d ++ s

/-- The commands that remove something from the tree. -/
def isRemovalOp : Op → Bool
  | Op.unlink => true
  | Op.rmdir => true
  | _ => false

/- ------------------------------------------------------------------ -/
/- Theorems.                                                          -/
/- ------------------------------------------------------------------ -/

@[simp]
theorem relativePath_make (p : String) (s m : Nat) (c : Option String) :
    (Entry.make p s m c).relativePath = p := rfl

@[simp]
theorem isDirectory_make (p : String) (s m : Nat) (c : Option String) :
    (Entry.make p s m c).isDirectory = pathIsDirectory p := by
  by_cases h : pathIsDirectory p <;>
      simp [Entry.make, Entry.isDirectory, h, DIRECTORY_MODE]
  decide

@[simp]
theorem path_removeCommand (e : Entry) :
    (removeCommand e).path = e.relativePath := rfl

@[simp]
theorem path_addCommand (e : Entry) :
    (addCommand e).path = e.relativePath := rfl

@[simp]
theorem path_updateCommand (e : Entry) :
    (updateCommand e).path = e.relativePath := rfl

theorem defaultIsEqual_self (e : Entry) : defaultIsEqual e e = true := by
  by_cases h : e.isDirectory <;> simp [defaultIsEqual, h]

theorem mergeLoop_self (A : List Entry) :
    mergeLoop defaultIsEqual A A = ⟨[], [], [], []⟩ := by
  induction A with
  | nil => simp [mergeLoop]
  | cons x A ih => simp [mergeLoop, defaultIsEqual_self, ih]

/-- C7: calculatePatch(A, A) with the default equality predicate is the
empty operation list; sortedness of A is not even needed. -/
theorem calculatePatch_self_empty (A : List Entry) :
    calculatePatch A A defaultIsEqual = [] := by
  simp [calculatePatch, mergeLoop_self]

/-- C8: the default equality predicate is true on every pair of directory
entries whatever their size, mtime and mode; on a pair of file entries it is
true exactly when size, mtime and mode all match (checksum never read); and
for two same-path directories no command at all is emitted. -/
theorem defaultIsEqual_spec :
    (∀ a b : Entry, a.isDirectory = true → b.isDirectory = true →
      defaultIsEqual a b = true) ∧
    (∀ a b : Entry, a.isFile = true → b.isFile = true →
      (defaultIsEqual a b = true ↔
        a.size = b.size ∧ a.mtime = b.mtime ∧ a.mode = b.mode)) ∧
    (∀ a b : Entry, a.isDirectory = true → b.isDirectory = true →
      a.relativePath = b.relativePath →
      calculatePatch [a] [b] defaultIsEqual = []) := by
  refine ⟨?_, ?_, ?_⟩
  · intro a b ha hb
    simp [defaultIsEqual, ha, hb]
  · intro a b ha hb
    simp only [Entry.isFile, Bool.not_eq_true'] at ha hb
    simp [defaultIsEqual, ha, hb, and_assoc]
  · intro a b ha hb hab
    have : defaultIsEqual a b = true := by simp [defaultIsEqual, ha, hb]
    simp [calculatePatch, mergeLoop, hab, this]

/-- Witness for C8: two directories with drifted size and mtime are equal
under the default predicate and produce no patch command. -/
theorem defaultIsEqual_spec_witness :
    (Entry.make "a/" 1 2 none).isDirectory = true ∧
    defaultIsEqual (Entry.make "a/" 1 2 none) (Entry.make "a/" 5 9 none) =
      true ∧
    calculatePatch [Entry.make "a/" 1 2 none] [Entry.make "a/" 5 9 none]
      defaultIsEqual = [] := by
  refine ⟨by decide, ?_, ?_⟩
  · exact defaultIsEqual_spec.1 _ _ (by decide) (by decide)
  · exact defaultIsEqual_spec.2.2 _ _ (by decide) (by decide) rfl

/-- C10: a provided non-callable second argument makes calculatePatch fail
with a TypeError whatever the two entry sequences are; no merge output is
produced. -/
theorem calculatePatchJS_noncallable_type_error
    (ours theirs : List Entry) :
    calculatePatchJS ours theirs (some none) =
      Except.error (JSErr.typeError
        "calculatePatch second argument must be a function") := rfl

/-- C3 counterexample: two leftover FILES in ours are pushed into the
removals buffer and therefore come out reversed; the spec-modelled drain
(files appended forward) yields the opposite order on the same input. -/
theorem calculatePatch_drain_spec_counterexample :
    calculatePatch
      [Entry.make "a.txt" 0 0 none, Entry.make "b.txt" 0 0 none] []
      defaultIsEqual =
      [⟨Op.unlink, "b.txt", Entry.make "b.txt" 0 0 none⟩,
       ⟨Op.unlink, "a.txt", Entry.make "a.txt" 0 0 none⟩] ∧
    calculatePatchSpecDrain
      [Entry.make "a.txt" 0 0 none, Entry.make "b.txt" 0 0 none] []
      defaultIsEqual =
      [⟨Op.unlink, "a.txt", Entry.make "a.txt" 0 0 none⟩,
       ⟨Op.unlink, "b.txt", Entry.make "b.txt" 0 0 none⟩] ∧
    calculatePatch
      [Entry.make "a.txt" 0 0 none, Entry.make "b.txt" 0 0 none] []
      defaultIsEqual ≠
    calculatePatchSpecDrain
      [Entry.make "a.txt" 0 0 none, Entry.make "b.txt" 0 0 none] []
      defaultIsEqual := by
  refine ⟨?_, ?_, ?_⟩ <;>
    simp [calculatePatch, calculatePatchSpecDrain, mergeLoop, removeCommand,
      pathIsDirectory, Entry.isFile]

/-- C3 (amended): every leftover ours entry is deferred into the removals
buffer — directories and files alike — every leftover theirs entry becomes
an add appended forward, and the result is the operations list followed by
the reversed removals buffer. -/
theorem calculatePatch_drain_structure :
    (∀ (ours : List Entry) (isEq : Entry → Entry → Bool),
      calculatePatch ours [] isEq = (ours.map removeCommand).reverse) ∧
    (∀ (theirs : List Entry) (isEq : Entry → Entry → Bool),
      calculatePatch [] theirs isEq = theirs.map addCommand) ∧
    (∀ (ours theirs : List Entry) (isEq : Entry → Entry → Bool),
      calculatePatch ours theirs isEq =
        ((mergeLoop isEq ours theirs).operations ++
          (mergeLoop isEq ours theirs).theirsLeft.map addCommand) ++
        ((mergeLoop isEq ours theirs).removals ++
          (mergeLoop isEq ours theirs).oursLeft.map removeCommand).reverse) := by
  refine ⟨?_, ?_, ?_⟩
  · intro ours isEq
    cases ours with
    | nil => simp [calculatePatch, mergeLoop]
    | cons x ours => simp [calculatePatch, mergeLoop]
  · intro theirs isEq
    simp [calculatePatch, mergeLoop]
  · intro ours theirs isEq
    rfl

/-- C9: every mutating operation on a STOPPED container fails at once with
an error naming the operation, no fs call is issued and the container state
is returned untouched. -/
theorem stopped_mutations_fail (t : FSTree) (p content : String)
    (digest : String → String) (now : Nat) (disk : String → String)
    (h : t.state = LifeState.stopped) :
    unlinkSync t p = (some (JSErr.error "NOPE, operation: unlink"), t, []) ∧
    rmdirSync t p = (some (JSErr.error "NOPE, operation: rmdir"), t, []) ∧
    mkdirSync t p = (some (JSErr.error "NOPE, operation: mkdir"), t, []) ∧
    writeFileSync digest now disk t p content =
      (some (JSErr.error "NOPE, operation: writeFile"), t, []) := by
  refine ⟨?_, ?_, ?_, ?_⟩ <;>
    simp [unlinkSync, rmdirSync, mkdirSync, writeFileSync, h]

/-- Witness for C9 at a concrete stopped container. -/
theorem stopped_mutations_fail_witness :
    (FSTree.mk [] "root" [] [] LifeState.stopped).state =
      LifeState.stopped ∧
    unlinkSync (FSTree.mk [] "root" [] [] LifeState.stopped) "a.txt" =
      (some (JSErr.error "NOPE, operation: unlink"),
       FSTree.mk [] "root" [] [] LifeState.stopped, []) :=
  ⟨rfl,
   (stopped_mutations_fail (FSTree.mk [] "root" [] [] LifeState.stopped)
     "a.txt" "c" (fun s => s) 0 (fun _ => "") rfl).1⟩

/-- C4: mkdirSync on a path absent from a started container's entries
issues the fs.mkdirSync call and then throws a TypeError inside _track
(reading relativePath of the null lookup result); no change record is
appended and no entry is inserted — the container comes back unchanged. -/
theorem mkdirSync_missing_path_type_error (t : FSTree) (p : String)
    (hstate : t.state = LifeState.started)
    (hfind : findByRelativePath t.entries p = none) :
    mkdirSync t p =
      (some (JSErr.typeError "Cannot read relativePath of null"), t,
       [IOCall.mkdirCall (t.root ++ "/" ++ p)]) := by
  simp [mkdirSync, hstate, hfind]

/-- Witness for C4 at a concrete started container with no entries. -/
theorem mkdirSync_missing_path_type_error_witness :
    (FSTree.mk [] "root" [] [] LifeState.started).state =
      LifeState.started ∧
    findByRelativePath
      (FSTree.mk [] "root" [] [] LifeState.started).entries "x" = none ∧
    mkdirSync (FSTree.mk [] "root" [] [] LifeState.started) "x" =
      (some (JSErr.typeError "Cannot read relativePath of null"),
       FSTree.mk [] "root" [] [] LifeState.started,
       [IOCall.mkdirCall "root/x"]) :=
  ⟨rfl, rfl,
   mkdirSync_missing_path_type_error
     (FSTree.mk [] "root" [] [] LifeState.started) "x" rfl rfl⟩

theorem findAux_spec (p : String) :
    ∀ (entries : List Entry) (i0 : Nat) (e : Entry) (i : Nat),
      findAux p entries i0 = some (e, i) →
      ∃ k, k < entries.length ∧ i = i0 + k ∧ entries[k]? = some e ∧
        e.relativePath = p := by
  intro entries
  induction entries with
  | nil => intro i0 e i h; simp [findAux] at h
  | cons x rest ih =>
    intro i0 e i h
    by_cases hx : x.relativePath = p
    · simp [findAux, hx] at h
      obtain ⟨he, hi⟩ := h
      refine ⟨0, by simp, by omega, ?_, ?_⟩
      · simp [← he]
      · rw [← he]; exact hx
    · simp [findAux, hx] at h
      obtain ⟨k, hk, hik, hget, hpath⟩ := ih (i0 + 1) e i h
      exact ⟨k + 1, by simpa using Nat.succ_lt_succ hk, by omega,
        by simpa using hget, hpath⟩

theorem findByRelativePath_spec (entries : List Entry) (p : String)
    (e : Entry) (i : Nat)
    (h : findByRelativePath entries p = some (e, i)) :
    i < entries.length ∧ entries[i]? = some e ∧ e.relativePath = p := by
  obtain ⟨k, hk, hik, hget, hpath⟩ := findAux_spec p entries 0 e i h
  refine ⟨by omega, ?_, hpath⟩
  have : i = k := by omega
  rw [this]; exact hget

/-- _track never touches the entries sequence. -/
theorem track_entries (t : FSTree) (op : Op) (ent : Option Entry) :
    (track t op ent).2.entries = t.entries := by
  cases ent with
  | none => rfl
  | some e =>
    simp only [track]
    cases h : lookupChange t.relativePathToChange e.relativePath with
    | none => rfl
    | some position =>
      cases h2 : t.changes[position]? with
      | none => simp [h2]
      | some old => simp [h2]

theorem mem_of_getElem_opt {l : List Entry} {i : Nat} {e : Entry}
    (h : l[i]? = some e) : e ∈ l := by
  obtain ⟨hlt, heq⟩ := List.getElem?_eq_some_iff.mp h
  exact heq ▸ List.getElem_mem hlt

theorem mem_set_self (l : List Entry) (i : Nat) (e : Entry)
    (h : i < l.length) : e ∈ l.set i e := by
  refine mem_of_getElem_opt (i := i) ?_
  rw [List.getElem?_set_self]
  · simp [List.getElem?_eq_some_iff, h]

/-- C5: unlinkSync and rmdirSync on a path present in a started container
keep the entries sequence the same length and keep an entry with that exact
path in the sequence: the looked-up entry is written back in place, never
deleted. -/
theorem unlink_rmdir_preserve_entries (t : FSTree) (p : String) (e : Entry)
    (i : Nat) (hstate : t.state = LifeState.started)
    (hfind : findByRelativePath t.entries p = some (e, i)) :
    ((unlinkSync t p).2.1.entries.length = t.entries.length ∧
      ∃ e2, e2 ∈ (unlinkSync t p).2.1.entries ∧ e2.relativePath = p) ∧
    ((rmdirSync t p).2.1.entries.length = t.entries.length ∧
      ∃ e2, e2 ∈ (rmdirSync t p).2.1.entries ∧ e2.relativePath = p) := by
  obtain ⟨hi, hget, hpath⟩ := findByRelativePath_spec t.entries p e i hfind
  have hmem : e ∈ t.entries := mem_of_getElem_opt hget
  constructor
  · have hte := track_entries t Op.unlink (some e)
    cases htr : track t Op.unlink (some e) with
    | mk err t1 =>
      rw [htr] at hte
      cases err with
      | some er =>
        have hval : (unlinkSync t p).2.1 = t1 := by
          simp [unlinkSync, hstate, hfind, htr]
        rw [hval, hte]
        exact ⟨rfl, e, hmem, hpath⟩
      | none =>
        have hval : (unlinkSync t p).2.1.entries = t1.entries.set i e := by
          simp [unlinkSync, hstate, hfind, htr, insertAt]
        rw [hval, hte]
        exact ⟨by simp, e, mem_set_self _ _ _ hi, hpath⟩
  · have hte := track_entries t Op.rmdir (some e)
    cases htr : track t Op.rmdir (some e) with
    | mk err t1 =>
      rw [htr] at hte
      cases err with
      | some er =>
        have hval : (rmdirSync t p).2.1 = t1 := by
          simp [rmdirSync, hstate, hfind, htr]
        rw [hval, hte]
        exact ⟨rfl, e, hmem, hpath⟩
      | none =>
        have hval : (rmdirSync t p).2.1.entries = t1.entries.set i e := by
          simp [rmdirSync, hstate, hfind, htr, insertAt]
        rw [hval, hte]
        exact ⟨by simp, e, mem_set_self _ _ _ hi, hpath⟩

/-- Witness for C5 at a concrete one-entry container. -/
theorem unlink_rmdir_preserve_entries_witness :
    findByRelativePath [Entry.make "a.txt" 2 0 (some "c")] "a.txt" =
      some (Entry.make "a.txt" 2 0 (some "c"), 0) ∧
    (unlinkSync (FSTree.mk [Entry.make "a.txt" 2 0 (some "c")] "root" [] []
        LifeState.started) "a.txt").2.1.entries.length = 1 :=
  ⟨rfl,
   (unlink_rmdir_preserve_entries
     (FSTree.mk [Entry.make "a.txt" 2 0 (some "c")] "root" [] []
       LifeState.started) "a.txt" (Entry.make "a.txt" 2 0 (some "c")) 0
     rfl rfl).1.1⟩

/-- C6: on a started container, writing content whose digest equals the
entry checksum (computed lazily from disk when the stored checksum is
falsy) performs no write call, records no change, and replaces no entry:
the container is returned as-is except that a lazily computed checksum is
stored back into the existing entry record. -/
theorem writeFileSync_dedup_noop (digest : String → String) (now : Nat)
    (disk : String → String) (t : FSTree) (p content : String) (e : Entry)
    (i : Nat) (hstate : t.state = LifeState.started)
    (hfind : findByRelativePath t.entries p = some (e, i))
    (hsum : (if strOptFalsy e.checksum then
        some (digest (disk (t.root ++ "/" ++ p)))
      else e.checksum) = some (digest content)) :
    writeFileSync digest now disk t p content =
      (none,
       if strOptFalsy e.checksum then
         lazyNoopTree (digest (disk (t.root ++ "/" ++ p))) t i e
       else t,
       if strOptFalsy e.checksum then [IOCall.readFile (t.root ++ "/" ++ p)]
       else []) ∧
    (writeFileSync digest now disk t p content).2.1.changes = t.changes ∧
    ∀ q s2,
      IOCall.writeFile q s2 ∉ (writeFileSync digest now disk t p content).2.2 := by
  by_cases hf : strOptFalsy e.checksum
  · rw [if_pos hf] at hsum
    have hc : digest (disk (t.root ++ "/" ++ p)) = digest content :=
      Option.some.inj hsum
    have h1 : writeFileSync digest now disk t p content =
        (none, lazyNoopTree (digest (disk (t.root ++ "/" ++ p))) t i e,
         [IOCall.readFile (t.root ++ "/" ++ p)]) := by
      simp [writeFileSync, hstate, hfind, hf, hc, lazyNoopTree, lazyEntry]
    rw [h1]
    refine ⟨by simp [hf], by simp [lazyNoopTree], by simp⟩
  · rw [if_neg hf] at hsum
    have h1 : writeFileSync digest now disk t p content = (none, t, []) := by
      simp [writeFileSync, hstate, hfind, hf]
      simp [hsum]
    rw [h1]
    refine ⟨by simp [hf], rfl, by simp⟩

/-- Witness for C6: rewriting identical content is a complete no-op. -/
theorem writeFileSync_dedup_noop_witness :
    findByRelativePath [Entry.make "a.txt" 2 0 (some "hi")] "a.txt" =
      some (Entry.make "a.txt" 2 0 (some "hi"), 0) ∧
    writeFileSync (fun _ => "hi") 7 (fun _ => "zzz")
      (FSTree.mk [Entry.make "a.txt" 2 0 (some "hi")] "root" [] []
        LifeState.started) "a.txt" "anything" =
      (none,
       FSTree.mk [Entry.make "a.txt" 2 0 (some "hi")] "root" [] []
         LifeState.started, []) := by
  constructor
  · rfl
  · have h := (writeFileSync_dedup_noop (fun _ => "hi") 7 (fun _ => "zzz")
      (FSTree.mk [Entry.make "a.txt" 2 0 (some "hi")] "root" [] []
        LifeState.started) "a.txt" "anything"
      (Entry.make "a.txt" 2 0 (some "hi")) 0 rfl rfl rfl).1
    simpa [strOptFalsy] using h

/-- C1 (evaluation of the code at the failing input): a started container
holding the sorted singleton [a.txt] receives a write to the new path
b.txt; the _insertAt scan splices the new entry in front of the first
SMALLER entry, so the sequence comes out [b.txt, a.txt] — the strictly
ascending order is destroyed by one mutation. -/
theorem insertAt_breaks_sorted_order :
    insertScan [Entry.make "a.txt" 0 0 none]
      (Entry.make "b.txt" 2 0 (some "hi")) =
      [Entry.make "b.txt" 2 0 (some "hi"), Entry.make "a.txt" 0 0 none] ∧
    List.Pairwise (fun a b : String => a < b)
      ((FSTree.mk [Entry.make "a.txt" 0 0 none] "root" [] []
        LifeState.started).entries.map Entry.relativePath) ∧
    (writeFileSync (fun s => s) 0 (fun _ => "")
      (FSTree.mk [Entry.make "a.txt" 0 0 none] "root" [] []
        LifeState.started) "b.txt" "hi").2.1.entries.map Entry.relativePath =
      ["b.txt", "a.txt"] ∧
    ¬ List.Pairwise (fun a b : String => a < b) ["b.txt", "a.txt"] := by
  refine ⟨?_, ?_, ?_, ?_⟩
  · simp [insertScan]
    decide
  · simp
  · simp [writeFileSync, findByRelativePath, findAux, track, lookupChange,
      insertAt, insertScan, strOptFalsy, Entry.make]
    decide
  · simp [List.pairwise_cons]
    decide

theorem list_lex_self_append :
    ∀ (l m : List Char), m ≠ [] → List.Lex (fun a b => a < b) l (l ++ m)
  | [], [], hm => absurd rfl hm
  | [], _ :: _, _ => List.Lex.nil
  | _a :: l, m, hm => List.Lex.cons (list_lex_self_append l m hm)

/-- A string extended by a nonempty suffix grows strictly in the
lexicographic order, so a directory path precedes all of its descendants. -/
theorem string_lt_self_append (d s : String) (hs : s ≠ "") : d < d ++ s := by
  rw [String.lt_iff_toList_lt]
  have h2 : (d ++ s).toList = d.toList ++ s.toList := rfl
  rw [h2]
  have hm : s.toList ≠ [] := by
    intro h
    exact hs (String.toList_inj.mp (h.trans String.toList_empty.symm))
  exact list_lex_self_append d.toList s.toList hm

/-- Every command in the removals buffer (with the drained leftover ours
entries appended) takes its path from a subsequence of ours. -/
theorem mergeLoop_removals_sublist (isEq : Entry → Entry → Bool) :
    ∀ (ours theirs : List Entry),
      (((mergeLoop isEq ours theirs).removals ++
        (mergeLoop isEq ours theirs).oursLeft.map removeCommand).map
          Cmd.path).Sublist (ours.map Entry.relativePath) := by
  intro ours theirs
  induction ours, theirs using mergeLoop.induct isEq with
  | case1 theirs => simp [mergeLoop]
  | case2 x ours =>
    simp [mergeLoop, List.map_map, Function.comp_def]
  | case3 x ours y theirs h hdir ih =>
    simpa [mergeLoop, h, hdir] using ih
  | case4 x ours y theirs h hdir ih =>
    simpa [mergeLoop, h, hdir] using ih.cons x.relativePath
  | case5 x ours y theirs h1 h2 ih =>
    simpa [mergeLoop, h1, h2] using ih
  | case6 x ours y theirs h1 h2 heq ih =>
    simpa [mergeLoop, h1, h2, heq] using ih.cons x.relativePath
  | case7 x ours y theirs h1 h2 heq hdir ih =>
    have hxy : x.relativePath = y.relativePath :=
      le_antisymm (not_lt.mp h2) (not_lt.mp h1)
    simpa [mergeLoop, h1, h2, heq, hdir, ← hxy] using ih
  | case8 x ours y theirs h1 h2 heq hdir ih =>
    simpa [mergeLoop, h1, h2, heq, hdir] using ih.cons x.relativePath

/-- No rmdir command is ever appended to the forward operations list (file
removals become unlink, adds become mkdir or create, updates become
change). -/
theorem mergeLoop_operations_no_rmdir (isEq : Entry → Entry → Bool) :
    ∀ (ours theirs : List Entry) (c : Cmd),
      c ∈ (mergeLoop isEq ours theirs).operations ++
        (mergeLoop isEq ours theirs).theirsLeft.map addCommand →
      c.op ≠ Op.rmdir := by
  intro ours theirs
  induction ours, theirs using mergeLoop.induct isEq with
  | case1 theirs =>
    intro c hc
    simp [mergeLoop] at hc
    obtain ⟨y, hy, rfl⟩ := hc
    by_cases hd : y.isDirectory <;> simp [addCommand, hd]
  | case2 x ours =>
    intro c hc
    simp [mergeLoop] at hc
  | case3 x ours y theirs h hdir ih =>
    intro c hc
    refine ih c ?_
    simpa [mergeLoop, h, hdir] using hc
  | case4 x ours y theirs h hdir ih =>
    intro c hc
    simp [mergeLoop, h, hdir] at hc
    rcases hc with hc1 | hc1 | hc2
    · rw [hc1]; simp [removeCommand, hdir]
    · exact ih c (List.mem_append.mpr (Or.inl hc1))
    · refine ih c ?_
      simp only [List.mem_append, List.mem_map]
      exact Or.inr hc2
  | case5 x ours y theirs h1 h2 ih =>
    intro c hc
    simp [mergeLoop, h1, h2] at hc
    rcases hc with hc1 | hc1 | hc2
    · rw [hc1]
      by_cases hd : y.isDirectory <;> simp [addCommand, hd]
    · exact ih c (List.mem_append.mpr (Or.inl hc1))
    · refine ih c ?_
      simp only [List.mem_append, List.mem_map]
      exact Or.inr hc2
  | case6 x ours y theirs h1 h2 heq ih =>
    intro c hc
    refine ih c ?_
    simpa [mergeLoop, h1, h2, heq] using hc
  | case7 x ours y theirs h1 h2 heq hdir ih =>
    intro c hc
    refine ih c ?_
    simpa [mergeLoop, h1, h2, heq, hdir] using hc
  | case8 x ours y theirs h1 h2 heq hdir ih =>
    intro c hc
    simp [mergeLoop, h1, h2, heq, hdir] at hc
    rcases hc with hc1 | hc1 | hc2
    · rw [hc1]; simp [updateCommand]
    · exact ih c (List.mem_append.mpr (Or.inl hc1))
    · refine ih c ?_
      simp only [List.mem_append, List.mem_map]
      exact Or.inr hc2

/-- Ordering core of the calculator output: in ops ++ rems.reverse, when ops
holds no rmdir command and the removals buffer paths ascend strictly, every
command sitting at a strict descendant of an emitted rmdir path comes out
strictly before that rmdir. -/
theorem append_reverse_removal_order (ops rems out : List Cmd)
    (hout : out = ops ++ rems.reverse)
    (hops : ∀ c ∈ ops, c.op ≠ Op.rmdir)
    (hrems : (rems.map Cmd.path).Pairwise (fun a b => a < b))
    (k m : Nat) (ck cm : Cmd)
    (hk : out[k]? = some ck) (hm : out[m]? = some cm)
    (hrm : ck.op = Op.rmdir)
    (hdesc : strictDescendant ck.path cm.path) :
    m < k := by
  subst hout
  obtain ⟨hklt, hkeq⟩ := List.getElem?_eq_some_iff.mp hk
  obtain ⟨hmlt, hmeq⟩ := List.getElem?_eq_some_iff.mp hm
  obtain ⟨s, hsne, hps⟩ := hdesc
  have hdp : ck.path < cm.path := by
    rw [hps]; exact string_lt_self_append _ s hsne
  have hkge : ops.length ≤ k := by
    by_contra hklt2
    push_neg at hklt2
    have hleft : (ops ++ rems.reverse)[k] = ops[k] :=
      List.getElem_append_left hklt2
    refine hops (ops[k]) (List.getElem_mem hklt2) ?_
    rw [← hleft, hkeq]
    exact hrm
  rcases Nat.lt_or_ge m ops.length with hmlt2 | hmge
  · omega
  · have hlen : (ops ++ rems.reverse).length =
        ops.length + rems.length := by simp
    have hkr : k - ops.length < rems.reverse.length := by
      rw [hlen] at hklt; simp only [List.length_reverse]; omega
    have hmr : m - ops.length < rems.reverse.length := by
      rw [hlen] at hmlt; simp only [List.length_reverse]; omega
    have hgk : rems.reverse[k - ops.length] = ck := by
      rw [← hkeq]
      exact (List.getElem_append_right hkge).symm
    have hgm : rems.reverse[m - ops.length] = cm := by
      rw [← hmeq]
      exact (List.getElem_append_right hmge).symm
    have hpw : rems.reverse.Pairwise (fun a b => b.path < a.path) := by
      rw [List.pairwise_reverse]
      simpa using List.pairwise_map.mp hrems
    by_contra hmk
    push_neg at hmk
    rcases lt_or_eq_of_le hmk with hkm | hkm
    · have hcc := List.pairwise_iff_getElem.mp hpw (k - ops.length)
        (m - ops.length) hkr hmr (by omega)
      rw [hgk, hgm] at hcc
      exact absurd hdp (asymm hcc)
    · subst hkm
      rw [hkeq] at hmeq
      rw [hmeq] at hdp
      exact lt_irrefl _ hdp

/-- C2: on sorted inputs, every command whose path is a strict descendant
of an emitted rmdir path appears strictly before that rmdir command; and
the documented scenario [a/, a/b/, a/b/c.js] to [] produces exactly
unlink a/b/c.js, rmdir a/b/, rmdir a/. -/
theorem calculatePatch_removal_order :
    (∀ (ours theirs : List Entry) (isEq : Entry → Entry → Bool),
      List.Pairwise (fun a b => a.relativePath < b.relativePath) ours →
      ∀ (k m : Nat) (ck cm : Cmd),
        (calculatePatch ours theirs isEq)[k]? = some ck →
        (calculatePatch ours theirs isEq)[m]? = some cm →
        ck.op = Op.rmdir → isRemovalOp cm.op = true →
        strictDescendant ck.path cm.path → m < k) ∧
    calculatePatch
      [Entry.make "a/" 0 0 none, Entry.make "a/b/" 0 0 none,
       Entry.make "a/b/c.js" 0 0 none] [] defaultIsEqual =
      [⟨Op.unlink, "a/b/c.js", Entry.make "a/b/c.js" 0 0 none⟩,
       ⟨Op.rmdir, "a/b/", Entry.make "a/b/" 0 0 none⟩,
       ⟨Op.rmdir, "a/", Entry.make "a/" 0 0 none⟩] := by
  constructor
  · intro ours theirs isEq hs k m ck cm hk hm hrm _hrem hdesc
    exact append_reverse_removal_order _ _ _ rfl
      (mergeLoop_operations_no_rmdir isEq ours theirs)
      (List.Pairwise.sublist (mergeLoop_removals_sublist isEq ours theirs)
        (List.pairwise_map.mpr hs))
      k m ck cm hk hm hrm hdesc
  · simp [calculatePatch, mergeLoop, removeCommand, pathIsDirectory]

/-- Witness for C2 at the documented scenario: the unlink of the leaf file
(index 0) precedes the rmdir of the root directory a/ (index 2). -/
theorem calculatePatch_removal_order_witness :
    List.Pairwise (fun a b : Entry => a.relativePath < b.relativePath)
      [Entry.make "a/" 0 0 none, Entry.make "a/b/" 0 0 none,
       Entry.make "a/b/c.js" 0 0 none] ∧ (0 : Nat) < 2 := by
  have hpw : List.Pairwise (fun a b : Entry => a.relativePath < b.relativePath)
      [Entry.make "a/" 0 0 none, Entry.make "a/b/" 0 0 none,
       Entry.make "a/b/c.js" 0 0 none] := by
    simp [List.pairwise_cons]
    decide
  refine ⟨hpw, ?_⟩
  refine calculatePatch_removal_order.1 _ [] defaultIsEqual hpw 2 0
    ⟨Op.rmdir, "a/", Entry.make "a/" 0 0 none⟩
    ⟨Op.unlink, "a/b/c.js", Entry.make "a/b/c.js" 0 0 none⟩ ?_ ?_ rfl rfl ?_
  · rw [calculatePatch_removal_order.2]
    rfl
  · rw [calculatePatch_removal_order.2]
    rfl
  · exact ⟨"b/c.js", by decide, rfl⟩
